import Mathlib

/-!
Verification of the enterprise-storm retrieval core.

Shallow embedding of:
- `src/common/entity_resolver.py` (`CompanyEntityResolver`)
- `src/database/repositories/source_material_repository.py`
  (`search_by_vector`, `get_nearest_next_chunk`, `get_context_window`)
- `src/services/search/query_analyzer.py` (`LLMQueryAnalyzer.analyze`)
- `src/services/vector_search_service.py` (`VectorSearchService.search`,
  `_rerank_results`, `_apply_source_tagging`)
- `src/engine/retriever.py` (`HybridRM.forward`, per-query merge)

External capabilities (the RapidFuzz scorer, the embedding model, the
cosine-distance computation, the LLM call, the internal/external search
backends) are modelled as explicit parameters; fallible remote calls are
modelled as `Except` outcomes.  Python floats are modelled as `ℚ`.
-/

namespace Storm

/-- Python substring test `needle in hay` on code points: `needle` is a
contiguous sub-sequence of `hay`'s characters. -/
def containsSub (needle : List Char) : List Char → Bool
  | [] => needle.isPrefixOf ([] : List Char)
  | c :: rest => needle.isPrefixOf (c :: rest) || containsSub needle rest

/-- `strContains hay needle` models Python `needle in hay` for strings. -/
def strContains (hay needle : String) : Bool :=
  containsSub needle.toList hay.toList

/-- Python `str.strip()`: drop leading and trailing whitespace
(executable character-list form of `String.trim`). -/
def pyStrip (s : String) : String :=
  String.mk (((s.data.dropWhile Char.isWhitespace).reverse.dropWhile
    Char.isWhitespace).reverse)

/-- Python `str.lower()` (ASCII case folding, identity on Hangul, as
`str.lower` is on the strings this system handles). -/
def pyLower (s : String) : String :=
  String.mk (s.data.map Char.toLower)

/-- Python `str.replace(" ", "")`: remove every space character. -/
def pyRemoveSpaces (s : String) : String :=
  String.mk (s.data.filter (fun c => c ≠ ' '))

/-- Python `str.split(sep)` for a one-character separator, on the
character list. -/
def splitOnCharList (sep : Char) : List Char → List (List Char)
  | [] => [[]]
  | c :: rest =>
    let r := splitOnCharList sep rest
    if c = sep then [] :: r
    else
      match r with
      | [] => [[c]]
      | h :: t => (c :: h) :: t

/-- Python `str.split(sep)` for a one-character separator. -/
def pySplit (s : String) (sep : Char) : List String :=
  (splitOnCharList sep s.data).map String.mk

/-! ## Entity resolver (`src/common/entity_resolver.py`) -/

/-- The hard-coded synonym dictionary `CompanyEntityResolver.SYNONYM_MAP`. -/
def SYNONYM_MAP : List (String × String) :=
  [("삼전", "삼성전자"),
   ("하이닉스", "SK하이닉스"),
   ("현차", "현대자동차"),
   ("기아차", "기아"),
   ("엘지전자", "LG전자"),
   ("엘전", "LG전자"),
   ("엘지화학", "LG화학"),
   ("포스코", "POSCO홀딩스"),
   ("한전", "한국전력"),
   ("samsung", "삼성전자"),
   ("sk hynix", "SK하이닉스"),
   ("hynix", "SK하이닉스"),
   ("lg energy", "LG에너지솔루션"),
   ("lgensol", "LG에너지솔루션"),
   ("엔솔", "LG에너지솔루션"),
   ("naver", "NAVER"),
   ("kakao", "카카오"),
   ("국민은행", "KB금융"),
   ("신한은행", "신한지주"),
   ("우리은행", "우리금융지주")]

/-- The resolver's injected state: the live roster (`db_companies`). -/
structure CompanyEntityResolver where
  db_companies : List String
deriving DecidableEq

/-- `rapidfuzz.process.extractOne(query, choices, scorer, score_cutoff)`:
the first choice attaining the maximal score, provided some score reaches
the cutoff; later choices replace the current best only on a strictly
greater score. The scorer is an abstract parameter (RapidFuzz `WRatio`). -/
def extractOne (scorer : String → String → ℚ) (query : String)
    (choices : List String) (score_cutoff : ℚ) : Option (String × ℚ) :=
  choices.foldl
    (fun acc c =>
      match acc with
      | none => if score_cutoff ≤ scorer query c then some (c, scorer query c) else none
      | some (b, bs) => if bs < scorer query c then some (c, scorer query c) else some (b, bs))
    none

/-- `CompanyEntityResolver.resolve(query, threshold)`: exact match against
the roster, then synonym lookup (result only accepted when also in the
roster), then fuzzy match via `extractOne`.  Python falsiness of the empty
string and the empty roster is modelled explicitly. -/
def resolve (scorer : String → String → ℚ) (res : CompanyEntityResolver)
    (query : String) (threshold : ℚ) : Option String :=
  if query = "" ∨ res.db_companies = [] then none
  else
    let clean_query := pyStrip query
    if clean_query ∈ res.db_companies then some clean_query
    else
      let normalized_key := pyLower (pyRemoveSpaces clean_query)
      let fuzzy : Option String :=
        (extractOne scorer clean_query res.db_companies threshold).map Prod.fst
      match (SYNONYM_MAP.find? (fun p => p.1 = normalized_key)) with
      | some p => if p.2 ∈ res.db_companies then some p.2 else fuzzy
      | none => fuzzy

/-! ## Query analysis (`src/services/search/query_analyzer.py`) -/

/-- `QueryAnalysisResult` (pydantic model). `intent` ranges over the four
literals `factoid | analytical | comparison | general`. -/
structure QueryAnalysisResult where
  intent : String
  target_companies : List String
  is_competitor_query : Bool
  time_period : Option String
  keywords : List String
deriving DecidableEq

/-- The fallback analysis built in the `except` branch of
`LLMQueryAnalyzer.analyze`. -/
def defaultAnalysis (query : String) : QueryAnalysisResult :=
  { intent := "general"
    target_companies := []
    is_competitor_query := false
    time_period := none
    keywords := [query] }

/-- `LLMQueryAnalyzer.analyze`: returns the parsed LLM result, or the
default analysis when the LLM call raises. The remote call's outcome is
an explicit `Except` parameter. -/
def analyze (llmOutcome : Except String QueryAnalysisResult)
    (query : String) : QueryAnalysisResult :=
  match llmOutcome with
  | Except.ok r => r
  | Except.error _ => defaultAnalysis query

/-! ## Relational data model -/

/-- `Company`: identity plus canonical display name. -/
structure Company where
  id : Nat
  company_name : String
deriving DecidableEq

/-- `AnalysisReport`: belongs to at most one company (nullable FK). -/
structure AnalysisReport where
  id : Nat
  company_id : Option Nat
deriving DecidableEq

/-- The slice of the fragment's free-form `meta_info` JSON read by the
retrieval core: the merged-legend flag and nothing else. -/
structure MetaInfo where
  has_merged_meta : Bool
deriving DecidableEq

/-- `SourceMaterial`: the atomic retrievable fragment. -/
structure SourceMaterial where
  id : Nat
  report_id : Nat
  chunk_type : String
  section_path : String
  sequence_order : Int
  raw_content : String
  embedding : List ℚ
  meta_info : Option MetaInfo
deriving DecidableEq

/-- `meta = next_chunk.meta_info or {}` followed by
`meta.get('has_merged_meta')` truthiness. -/
def hasMergedMeta (m : SourceMaterial) : Bool :=
  match m.meta_info with
  | none => false
  | some mi => mi.has_merged_meta

/-- The relational store: the three tables the retrieval core reads. -/
structure Database where
  companies : List Company
  reports : List AnalysisReport
  materials : List SourceMaterial
deriving DecidableEq

/-! ## Fragment store access
(`src/database/repositories/source_material_repository.py`) -/

/-- `SourceMaterialRepository.search_by_vector`: join
SourceMaterial → AnalysisReport → Company, always exclude `noise_merged`,
optionally restrict to a company set (skipped for an empty/None list,
matching Python's `if company_filter_list:`) and to a chunk type
(skipped for `None`/empty string), order by cosine distance ascending,
truncate to `top_k`.  `cosDist` abstracts pgvector's `<=>` operator. -/
def search_by_vector (cosDist : List ℚ → List ℚ → ℚ) (db : Database)
    (query_embedding : List ℚ) (top_k : Nat)
    (company_filter_list : Option (List String))
    (chunk_type_filter : Option String) :
    List (SourceMaterial × String × ℚ) :=
  let joined : List (SourceMaterial × String × ℚ) :=
    db.materials.flatMap (fun m =>
      (db.reports.filter (fun r => r.id == m.report_id)).flatMap (fun r =>
        (db.companies.filter (fun c => r.company_id == some c.id)).map (fun c =>
          (m, c.company_name, cosDist query_embedding m.embedding))))
  let noNoise := joined.filter (fun row => row.1.chunk_type != "noise_merged")
  let companyFiltered :=
    match company_filter_list with
    | none => noNoise
    | some l => if l = [] then noNoise
                else noNoise.filter (fun row => row.2.1 ∈ l)
  let typeFiltered :=
    match chunk_type_filter with
    | none => companyFiltered
    | some ct => if ct = "" then companyFiltered
                 else companyFiltered.filter (fun row => row.1.chunk_type == ct)
  (List.insertionSort (fun a b => a.2.2 ≤ b.2.2) typeFiltered).take top_k

/-- `SourceMaterialRepository.get_nearest_next_chunk`: first non-noise
fragment of the same report strictly after `current_seq`, by ascending
`sequence_order`, limit 1. -/
def get_nearest_next_chunk (db : Database) (report_id : Nat)
    (current_seq : Int) : Option SourceMaterial :=
  ((db.materials.filter (fun m =>
      m.report_id == report_id
        && decide (current_seq < m.sequence_order)
        && m.chunk_type != "noise_merged")).insertionSort
    (fun a b => a.sequence_order ≤ b.sequence_order)).head?

/-- `SourceMaterialRepository.get_context_window`: non-noise fragments of
the report with `sequence_order` in `[center − window, center + window]`,
excluding the center itself, ascending. -/
def get_context_window (db : Database) (report_id : Nat)
    (center_sequence : Int) (window_size : Int) : List SourceMaterial :=
  let min_seq := center_sequence - window_size
  let max_seq := center_sequence + window_size
  (db.materials.filter (fun m =>
      m.report_id == report_id
        && decide (min_seq ≤ m.sequence_order ∧ m.sequence_order ≤ max_seq)
        && m.chunk_type != "noise_merged"
        && m.sequence_order != center_sequence)).insertionSort
    (fun a b => a.sequence_order ≤ b.sequence_order)

/-! ## Search orchestrator (`src/services/vector_search_service.py`) -/

/-- One entry of the dict built in `VectorSearchService.search` step 6.
The underscore-prefixed internal-only dict keys become `Option` fields;
`_apply_source_tagging` pops them (sets them to `none`). -/
structure RankedDoc where
  content : String
  title : String
  url : String
  score : ℚ
  company_name : Option String
  intent : Option String
  matched_entities : Option (List String)
deriving DecidableEq

/-- Step 2 of `search`: resolve each raw mention, falling back to the raw
mention when the resolver yields a falsy result (`None` or `""`). -/
def resolveCompanies (scorer : String → String → ℚ)
    (resolver : CompanyEntityResolver) (names : List String) : List String :=
  names.map (fun raw =>
    match resolve scorer resolver raw 65 with
    | some r => if r = "" then raw else r
    | none => raw)

/-- Step 4 of `search` (filter strategy): `filter_list = resolved_companies`,
overridden to `None` for competitor queries. -/
def searchFilterList (analysis : QueryAnalysisResult)
    (resolved_companies : List String) : Option (List String) :=
  if analysis.is_competitor_query then none else some resolved_companies

/-- Step 5 of `search`: `top_k * 2 if analysis.is_competitor_query else top_k`. -/
def searchPoolSize (analysis : QueryAnalysisResult) (top_k : Nat) : Nat :=
  if analysis.is_competitor_query then top_k * 2 else top_k

/-- Step 6 of `search` on one raw row: score `1 − distance`, forward
lookup, table attachment when the next chunk is a `table` within a
sequence gap of 5, merged-legend note, and the result dict. -/
def processRow (db : Database) (analysis : QueryAnalysisResult)
    (resolved_companies : List String)
    (row : SourceMaterial × String × ℚ) : RankedDoc :=
  let material := row.1
  let score : ℚ := 1 - row.2.2
  let content0 := material.raw_content
  let content :=
    match get_nearest_next_chunk db material.report_id material.sequence_order with
    | none => content0
    | some next_chunk =>
      let seq_gap := next_chunk.sequence_order - material.sequence_order
      if next_chunk.chunk_type = "table" ∧ seq_gap ≤ 5 then
        let withTable := content0 ++ "\n\n[관련 표 데이터]\n" ++ next_chunk.raw_content
        if hasMergedMeta next_chunk then
          "[참고: 표에 단위/범례 정보가 포함됨]\n" ++ withTable
        else withTable
      else content0
  { content := content
    title := material.section_path
    url := "dart_report_" ++ toString material.report_id
             ++ "_chunk_" ++ toString material.id
    score := score
    company_name := some row.2.1
    intent := some analysis.intent
    matched_entities := some resolved_companies }

/-- The `is_matched` computation of `_rerank_results`: an empty or
unknown lower-cased company label counts as matched, otherwise the label
must contain one of the (already lower-cased) targets as a substring. -/
def docMatched (targets : List String) (doc : RankedDoc) : Bool :=
  let doc_company := pyLower (doc.company_name.getD "")
  if doc_company = "" ∨ doc_company = "unknown company" then true
  else targets.any (fun t => strContains doc_company t)

/-- The per-document body of `_rerank_results`: boost ×1.3 on a company
match (empty/unknown counts as matched), keep unmodified in competitor
mode, drop for off-target `factoid`, else penalize ×0.5. -/
def rerankStep (targets : List String) (is_relaxed_mode : Bool)
    (intent : String) (doc : RankedDoc) : Option RankedDoc :=
  if docMatched targets doc then some { doc with score := doc.score * (13/10 : ℚ) }
  else if is_relaxed_mode then some doc
  else if intent = "factoid" then none
  else some { doc with score := doc.score * (1/2 : ℚ) }

/-- `VectorSearchService._rerank_results`: early return when there are no
targets and the query is not a competitor query; otherwise apply
`rerankStep` to each document in order and stable-sort by descending
score (Python `list.sort(key=score, reverse=True)`). -/
def rerank_results (results : List RankedDoc)
    (analysis : QueryAnalysisResult) (resolved_companies : List String) :
    List RankedDoc :=
  let targets := resolved_companies.map pyLower
  if targets = [] ∧ analysis.is_competitor_query = false then results
  else
    let reranked := results.filterMap
      (rerankStep targets analysis.is_competitor_query analysis.intent)
    List.insertionSort (fun a b => b.score ≤ a.score) reranked

/-- `VectorSearchService._apply_source_tagging` on one document: prepend
the provenance tag built from `_company_name` and the report id parsed
from the url (`url.split('_')[2]`, `'N/A'` when absent), then pop the
three internal-only keys. -/
def applySourceTagging (doc : RankedDoc) : RankedDoc :=
  let company := doc.company_name.getD "Unknown"
  let rid := (((pySplit doc.url '_').get? 2)).getD "N/A"
  let tag := "[[출처: " ++ company ++ " 사업보고서 (Report ID: " ++ rid ++ ")]]"
  { doc with
    content := tag ++ "\n\n" ++ doc.content
    company_name := none
    intent := none
    matched_entities := none }

/-- `VectorSearchService.search`: the end-to-end pipeline.  The LLM call
of step 1 is an `Except` outcome, the embedding model and the resolver's
fuzzy scorer are abstract parameters. -/
def search (scorer : String → String → ℚ) (cosDist : List ℚ → List ℚ → ℚ)
    (embed : String → List ℚ) (db : Database)
    (resolver : CompanyEntityResolver)
    (llmOutcome : Except String QueryAnalysisResult) (query : String)
    (top_k : Nat) (enable_rerank : Bool) (enable_source_tagging : Bool) :
    List RankedDoc :=
  let analysis := analyze llmOutcome query
  let resolved_companies :=
    resolveCompanies scorer resolver analysis.target_companies
  let query_embedding := embed query
  let raw_rows := search_by_vector cosDist db query_embedding
    (searchPoolSize analysis top_k)
    (searchFilterList analysis resolved_companies)
    (some "text")
  if raw_rows = [] then []
  else
    let processed_results :=
      raw_rows.map (processRow db analysis resolved_companies)
    let afterRerank :=
      if enable_rerank then
        (rerank_results processed_results analysis resolved_companies).take top_k
      else processed_results
    if enable_source_tagging then afterRerank.map applySourceTagging
    else afterRerank

/-! ## Hybrid merger (`src/engine/retriever.py`, `HybridRM.forward`) -/

/-- The STORM-format dict entries flowing through `HybridRM`: the merge
logic reads only `url` (`item.get('url','')`, so a missing url is the
empty string) and writes `source`. -/
structure HybridDoc where
  content : String
  title : String
  url : String
  score : ℚ
  source : String
deriving DecidableEq

/-- `item['source'] = s` over a result list. -/
def tagSource (s : String) (l : List HybridDoc) : List HybridDoc :=
  l.map (fun d => { d with source := s })

/-- One iteration of the merge loop: keep an item with a fresh non-empty
url (recording it as seen), skip an item whose non-empty url was already
seen, always keep an item with an empty url. -/
def dedupStep (acc : List String × List HybridDoc) (item : HybridDoc) :
    List String × List HybridDoc :=
  if item.url ≠ "" then
    if item.url ∈ acc.1 then acc
    else (item.url :: acc.1, acc.2 ++ [item])
  else (acc.1, acc.2 ++ [item])

/-- The merge-and-deduplicate stage of `HybridRM.forward` step 3, run over
internal results followed by external results with one shared
`seen_urls` set. -/
def mergeDedup (items : List HybridDoc) : List HybridDoc :=
  (items.foldl dedupStep ([], [])).2

/-- `HybridRM.forward` for a single query: internal search capped at
`internal_k` and tagged `internal`, external search capped at
`external_k` and tagged `external`, each failure caught independently
(yielding an empty contribution), then merge with URL deduplication.
The two backends are abstract `Except` outcomes. -/
def hybridForwardQuery (internal_k external_k : Nat)
    (internalOutcome externalOutcome : Except String (List HybridDoc)) :
    List HybridDoc :=
  let internal_results :=
    match internalOutcome with
    | Except.ok l => tagSource "internal" (l.take internal_k)
    | Except.error _ => []
  let external_results :=
    match externalOutcome with
    | Except.ok l => tagSource "external" (l.take external_k)
    | Except.error _ => []
  mergeDedup (internal_results ++ external_results)

/-- `HybridRM.forward` over a query list: per-query merge, aggregated in
query order. -/
def hybridForward (internal_k external_k : Nat)
    (internalOutcome externalOutcome : String → Except String (List HybridDoc))
    (queries : List String) : List HybridDoc :=
  queries.flatMap (fun q =>
    hybridForwardQuery internal_k external_k
      (internalOutcome q) (externalOutcome q))

/-! ## Proof-support definitions -/

/-- Recursive characterization of the merge loop of `HybridRM.forward`
(`seen_urls` threaded explicitly), used to reason about `mergeDedup`. -/
def dedupGo (seen : List String) : List HybridDoc → List HybridDoc
  | [] => []
  | x :: xs =>
    if x.url ≠ "" then
      if x.url ∈ seen then dedupGo seen xs
      else x :: dedupGo (x.url :: seen) xs
    else x :: dedupGo seen xs

/-! ## Concrete fixtures (used by witnesses and counterexamples) -/

/-- A trivial fuzzy scorer: scores every pair 0 (below any threshold). -/
def scorer0 : String → String → ℚ := fun _ _ => 0

/-- A fixed embedding capability. -/
def embed0 : String → List ℚ := fun _ => []

/-- A distance capability reading the distance off the stored embedding,
so the fixtures control the ranking. -/
def cosDist0 : List ℚ → List ℚ → ℚ := fun _ e => e.headD 0

/-- Fixture store: two companies, two reports; report 7 holds a text
fragment at sequence 10, a noise fragment at 11 and a table at 13
(gap 3 ≤ 5, merged-legend flag set); report 8 holds a text fragment at
sequence 10 and a table at 20 (gap 10 > 5).
This one is the report-7 text fragment at sequence 10. -/
def matText7 : SourceMaterial := ⟨1, 7, "text", "II. Business", 10, "alpha", [1/2], none⟩

/-- Fixture noise fragment of report 7 at sequence 11. -/
def matNoise7 : SourceMaterial := ⟨5, 7, "noise_merged", "x", 11, "zz", [1], none⟩

/-- Fixture table fragment of report 7 at sequence 13 (merged-legend flag set). -/
def matTable7 : SourceMaterial := ⟨2, 7, "table", "tbl", 13, "tabledata", [1], some ⟨true⟩⟩

/-- Fixture text fragment of report 8 at sequence 10. -/
def matText8 : SourceMaterial := ⟨3, 8, "text", "III. Finance", 10, "beta", [1/4], none⟩

/-- Fixture table fragment of report 8 at sequence 20 (gap 10 > 5). -/
def matTable8 : SourceMaterial := ⟨4, 8, "table", "tbl2", 20, "fartable", [1], none⟩

/-- The fixture store assembled from the fragments above. -/
def db0 : Database :=
  { companies := [⟨1, "ACME"⟩, ⟨2, "GLOBEX"⟩]
    reports := [⟨7, some 1⟩, ⟨8, some 2⟩]
    materials := [matText7, matNoise7, matTable7, matText8, matTable8] }

/-- Fixture roster matching `db0`. -/
def resolver0 : CompanyEntityResolver := ⟨["ACME", "GLOBEX"]⟩

/-- Fixture analysis: a factoid question about ACME. -/
def analysis0 : QueryAnalysisResult :=
  { intent := "factoid"
    target_companies := ["ACME"]
    is_competitor_query := false
    time_period := none
    keywords := ["q"] }

/-- Fixture analysis: a competitor-comparison query. -/
def analysisComp : QueryAnalysisResult :=
  { intent := "comparison"
    target_companies := ["ACME"]
    is_competitor_query := true
    time_period := none
    keywords := ["q"] }

/-- Fixture ranked documents for the rerank policy. -/
def docOnTarget : RankedDoc :=
  ⟨"on-target content", "t1", "dart_report_7_chunk_1", 1, some "ACME Corp", some "factoid", some ["ACME"]⟩

/-- An off-target ranked document (company not containing any target). -/
def docOffTarget : RankedDoc :=
  ⟨"off-target content", "t2", "dart_report_8_chunk_3", 1, some "GLOBEX", some "factoid", some ["ACME"]⟩

/-- Hybrid fixture: three external results, the first two sharing url
`u1`. -/
def hDocA : HybridDoc := ⟨"A", "ta", "u1", 1, ""⟩

/-- Second external fixture, duplicate url `u1`. -/
def hDocB : HybridDoc := ⟨"B", "tb", "u1", 1, ""⟩

/-- Third external fixture, url `u2`. -/
def hDocC : HybridDoc := ⟨"C", "tc", "u2", 1, ""⟩

/-- External fixtures with five pairwise-distinct urls. -/
def hDocs5 : List HybridDoc :=
  [⟨"E1", "t1", "e1", 1, ""⟩, ⟨"E2", "t2", "e2", 1, ""⟩,
   ⟨"E3", "t3", "e3", 1, ""⟩, ⟨"E4", "t4", "e4", 1, ""⟩,
   ⟨"E5", "t5", "e5", 1, ""⟩]

/-- Internal-side hybrid fixture with url `u1` (collides with `hDocA`). -/
def hDocI : HybridDoc := ⟨"I", "ti", "u1", 1, ""⟩

/-- Internal-side hybrid fixture with an empty url. -/
def hDocNoUrl : HybridDoc := ⟨"N", "tn", "", 1, ""⟩

/-! # Theorems -/

/-- The folded step function of `extractOne` only ever promotes elements
of the traversed list (or keeps the accumulator's entry). -/
theorem extractOne_fold_mem (scorer : String → String → ℚ) (q : String)
    (cutoff : ℚ) (l : List String) :
    ∀ (acc : Option (String × ℚ)) (c : String) (s : ℚ),
      l.foldl
        (fun acc x =>
          match acc with
          | none => if cutoff ≤ scorer q x then some (x, scorer q x) else none
          | some (b, bs) =>
            if bs < scorer q x then some (x, scorer q x) else some (b, bs))
        acc = some (c, s) →
      (∃ s0, acc = some (c, s0)) ∨ c ∈ l := by
  induction l with
  | nil => exact fun acc c s h => Or.inl ⟨s, h⟩
  | cons x xs ih =>
    intro acc c s h
    simp only [List.foldl_cons] at h
    rcases ih _ c s h with ⟨s0, hs0⟩ | hmem
    · rcases acc with _ | ⟨b, bs⟩
      · simp only [] at hs0
        split at hs0
        · obtain ⟨rfl, -⟩ := Prod.mk.injEq .. ▸ Option.some.inj hs0
          exact Or.inr (List.mem_cons_self x xs)
        · exact absurd hs0 (by simp)
      · simp only [] at hs0
        split at hs0
        · obtain ⟨rfl, -⟩ := Prod.mk.injEq .. ▸ Option.some.inj hs0
          exact Or.inr (List.mem_cons_self x xs)
        · obtain ⟨rfl, -⟩ := Prod.mk.injEq .. ▸ Option.some.inj hs0
          exact Or.inl ⟨bs, rfl⟩
    · exact Or.inr (List.mem_cons_of_mem x hmem)

/-- `extractOne` returns an element of its choice list. -/
theorem extractOne_mem {scorer : String → String → ℚ} {q : String}
    {choices : List String} {cutoff : ℚ} {c : String} {s : ℚ}
    (h : extractOne scorer q choices cutoff = some (c, s)) : c ∈ choices := by
  unfold extractOne at h
  rcases extractOne_fold_mem scorer q cutoff choices none c s h with ⟨s0, h0⟩ | hmem
  · exact absurd h0 (by simp)
  · exact hmem

/-- A roster name that is nonempty and free of surrounding whitespace is
returned unchanged by `resolve` (the exact-match short-circuit). -/
theorem resolve_exact_short_circuit (scorer : String → String → ℚ)
    (res : CompanyEntityResolver) (r : String)
    (hr : r ∈ res.db_companies) (hne : r ≠ "") (hstrip : pyStrip r = r) :
    resolve scorer res r 65 = some r := by
  have hg : ¬(r = "" ∨ res.db_companies = []) := by
    rintro (h1 | h2)
    · exact hne h1
    · rw [h2] at hr
      exact absurd hr (List.not_mem_nil r)
  simp only [resolve]
  rw [if_neg hg, hstrip, if_pos hr]

/-- C5 — counterexample: over the roster `[""]`, `resolve " "` returns
the roster member `""`, but `resolve ""` is `None`, not `""`: as stated
(for every roster), `resolve(r) = r` fails for a returned `r`. -/
theorem c5_counterexample :
    resolve scorer0 ⟨[""]⟩ " " 65 = some "" ∧
    "" ∈ (⟨[""]⟩ : CompanyEntityResolver).db_companies ∧
    ¬ resolve scorer0 ⟨[""]⟩ "" 65 = some "" := by decide

/-- C5 (amended): every non-null `resolve` result is a member of the live
roster, and whenever that member is a nonempty name without surrounding
whitespace, resolving it again returns it unchanged via the exact-match
short-circuit — so resolution is idempotent on such rosters. -/
theorem c5_resolve_idempotent (scorer : String → String → ℚ)
    (res : CompanyEntityResolver) (x r : String)
    (h : resolve scorer res x 65 = some r) :
    r ∈ res.db_companies ∧
      (r ≠ "" → pyStrip r = r → resolve scorer res r 65 = some r) := by
  have hmem : r ∈ res.db_companies := by
    simp only [resolve] at h
    split at h
    · exact absurd h (by simp)
    · split at h
      · next hex => exact (Option.some.inj h) ▸ hex
      · split at h
        · next p hfind =>
          split at h
          · next hp => exact (Option.some.inj h) ▸ hp
          · rcases Option.map_eq_some'.1 h with ⟨⟨c, s⟩, hext, hc⟩
            exact hc ▸ extractOne_mem hext
        · rcases Option.map_eq_some'.1 h with ⟨⟨c, s⟩, hext, hc⟩
          exact hc ▸ extractOne_mem hext
  exact ⟨hmem, fun hne hstrip =>
    resolve_exact_short_circuit scorer res r hmem hne hstrip⟩

/-- C5 witness: concrete run of the amended idempotence theorem on the
fixture roster. -/
theorem c5_witness :
    "ACME" ∈ resolver0.db_companies ∧
    resolve scorer0 resolver0 "ACME" 65 = some "ACME" := by
  have h := c5_resolve_idempotent scorer0 resolver0 "ACME" "ACME" (by decide)
  exact ⟨h.1, h.2 (by decide) (by decide)⟩

/-- C1: competitor queries discard the company filter (`None`) and double
the candidate pool; non-competitor queries pass exactly the resolved
company set and request `top_k`. -/
theorem c1_filter_strategy (analysis : QueryAnalysisResult)
    (resolved_companies : List String) (top_k : Nat) :
    (analysis.is_competitor_query = true →
      searchFilterList analysis resolved_companies = none ∧
      searchPoolSize analysis top_k = top_k * 2) ∧
    (analysis.is_competitor_query = false →
      searchFilterList analysis resolved_companies = some resolved_companies ∧
      searchPoolSize analysis top_k = top_k) := by
  constructor <;> intro h <;> simp [searchFilterList, searchPoolSize, h]

/-- C1 witness: the comparison-scenario analysis yields a `None` filter
and a doubled pool; the factoid fixture keeps filter and pool. -/
theorem c1_witness :
    searchFilterList analysisComp ["ACME"] = none ∧
    searchPoolSize analysisComp 10 = 10 * 2 ∧
    searchFilterList analysis0 ["ACME"] = some ["ACME"] ∧
    searchPoolSize analysis0 10 = 10 := by
  refine ⟨?_, ?_, ?_, ?_⟩
  · exact ((c1_filter_strategy analysisComp ["ACME"] 10).1 rfl).1
  · exact ((c1_filter_strategy analysisComp ["ACME"] 10).1 rfl).2
  · exact ((c1_filter_strategy analysis0 ["ACME"] 10).2 rfl).1
  · exact ((c1_filter_strategy analysis0 ["ACME"] 10).2 rfl).2

/-- C6: a failed intent analysis never propagates — the pipeline
substitutes the default result (`intent = "general"`, empty companies,
`keywords = [query]`), the whole search behaves exactly as if the analyzer
had returned that default, and under the default the store query carries
no company restriction, the pool stays `top_k`, and the heuristic rerank
is the identity (an unfiltered, unprioritized pass). -/
theorem c6_degrade_to_default (scorer : String → String → ℚ)
    (cosDist : List ℚ → List ℚ → ℚ) (embed : String → List ℚ)
    (db : Database) (resolver : CompanyEntityResolver) (e : String)
    (query : String) (top_k : Nat) (er st : Bool)
    (qe : List ℚ) (ctf : Option String) (results : List RankedDoc) :
    analyze (Except.error e) query = defaultAnalysis query ∧
    (defaultAnalysis query).intent = "general" ∧
    (defaultAnalysis query).target_companies = [] ∧
    (defaultAnalysis query).keywords = [query] ∧
    search scorer cosDist embed db resolver (Except.error e) query top_k er st =
      search scorer cosDist embed db resolver (Except.ok (defaultAnalysis query))
        query top_k er st ∧
    search_by_vector cosDist db qe top_k
        (searchFilterList (defaultAnalysis query)
          (resolveCompanies scorer resolver (defaultAnalysis query).target_companies))
        ctf =
      search_by_vector cosDist db qe top_k none ctf ∧
    searchPoolSize (defaultAnalysis query) top_k = top_k ∧
    rerank_results results (defaultAnalysis query)
      (resolveCompanies scorer resolver (defaultAnalysis query).target_companies) =
      results := by
  refine ⟨rfl, rfl, rfl, rfl, rfl, ?_, rfl, ?_⟩
  · simp [search_by_vector, searchFilterList, resolveCompanies, defaultAnalysis]
  · simp [rerank_results, resolveCompanies, defaultAnalysis]

/-- A score-only update leaves the company-match verdict unchanged. -/
theorem docMatched_score_update (targets : List String) (d : RankedDoc)
    (s : ℚ) : docMatched targets { d with score := s } = docMatched targets d :=
  rfl

/-- `rerankStep` never alters any field except the score. -/
theorem rerankStep_some_shape (targets : List String) (rx : Bool)
    (intent : String) (d d' : RankedDoc)
    (h : rerankStep targets rx intent d = some d') :
    d'.content = d.content ∧ d'.title = d.title ∧ d'.url = d.url ∧
      d'.company_name = d.company_name ∧ d'.intent = d.intent ∧
      d'.matched_entities = d.matched_entities := by
  unfold rerankStep at h
  split at h
  · exact (Option.some.inj h) ▸ ⟨rfl, rfl, rfl, rfl, rfl, rfl⟩
  · split at h
    · exact (Option.some.inj h) ▸ ⟨rfl, rfl, rfl, rfl, rfl, rfl⟩
    · split at h
      · exact absurd h (by simp)
      · exact (Option.some.inj h) ▸ ⟨rfl, rfl, rfl, rfl, rfl, rfl⟩

/-- Every output of `_rerank_results` is one of the input documents with
at most its score changed. -/
theorem rerank_results_mem_shape (l : List RankedDoc)
    (analysis : QueryAnalysisResult) (resolved : List String)
    (d' : RankedDoc) (h : d' ∈ rerank_results l analysis resolved) :
    ∃ d ∈ l, d'.content = d.content ∧ d'.title = d.title ∧ d'.url = d.url ∧
      d'.company_name = d.company_name ∧ d'.intent = d.intent ∧
      d'.matched_entities = d.matched_entities := by
  simp only [rerank_results] at h
  split at h
  · exact ⟨d', h, rfl, rfl, rfl, rfl, rfl, rfl⟩
  · obtain ⟨d, hd, hstep⟩ := List.mem_filterMap.1 ((List.mem_insertionSort _).1 h)
    exact ⟨d, hd, rerankStep_some_shape _ _ _ _ _ hstep⟩

/-- C2: the heuristic rerank policy. For factoid, non-competitor queries
with a non-empty target set, every survivor's company label is
empty/unknown or contains a lower-cased target (off-target hits are
dropped); matched hits are boosted ×1.3 whenever the rerank loop runs;
off-target hits under analytical/general intent are kept with a ×0.5
penalty; off-target hits of competitor queries are kept unmodified. -/
theorem c2_heuristic_rerank (results : List RankedDoc)
    (analysis : QueryAnalysisResult) (resolved : List String) :
    (analysis.intent = "factoid" → analysis.is_competitor_query = false →
      resolved ≠ [] →
      ∀ d ∈ rerank_results results analysis resolved,
        docMatched (resolved.map pyLower) d = true) ∧
    ((resolved ≠ [] ∨ analysis.is_competitor_query = true) →
      ∀ d ∈ results, docMatched (resolved.map pyLower) d = true →
        { d with score := d.score * (13/10 : ℚ) } ∈
          rerank_results results analysis resolved) ∧
    (analysis.is_competitor_query = false →
      (analysis.intent = "analytical" ∨ analysis.intent = "general") →
      resolved ≠ [] →
      ∀ d ∈ results, docMatched (resolved.map pyLower) d = false →
        { d with score := d.score * (1/2 : ℚ) } ∈
          rerank_results results analysis resolved) ∧
    (analysis.is_competitor_query = true →
      ∀ d ∈ results, docMatched (resolved.map pyLower) d = false →
        d ∈ rerank_results results analysis resolved) := by
  refine ⟨?_, ?_, ?_, ?_⟩
  · intro hint hcomp hne d hd
    unfold rerank_results at hd
    rw [if_neg (fun hguard => hne (List.map_eq_nil_iff.1 hguard.1))] at hd
    obtain ⟨a, _, hstep⟩ := List.mem_filterMap.1 ((List.mem_insertionSort _).1 hd)
    unfold rerankStep at hstep
    by_cases hm : docMatched (resolved.map pyLower) a
    · rw [if_pos hm] at hstep
      rw [← Option.some.inj hstep, docMatched_score_update]
      exact hm
    · rw [if_neg hm, hcomp, hint] at hstep
      simp at hstep
  · intro hcond d hd hm
    have hguard : ¬(resolved.map pyLower = [] ∧ analysis.is_competitor_query = false) := by
      rcases hcond with h | h
      · exact fun hg => h (List.map_eq_nil_iff.1 hg.1)
      · intro hg
        rw [h] at hg
        exact absurd hg.2 (by decide)
    unfold rerank_results
    rw [if_neg hguard]
    exact (List.mem_insertionSort _).2
      (List.mem_filterMap.2 ⟨d, hd, by rw [rerankStep, if_pos hm]⟩)
  · intro hcomp hint hne d hd hm
    have hnf : ¬ analysis.intent = "factoid" := by
      rcases hint with h | h <;> rw [h] <;> decide
    unfold rerank_results
    rw [if_neg (fun hguard => hne (List.map_eq_nil_iff.1 hguard.1))]
    refine (List.mem_insertionSort _).2 (List.mem_filterMap.2 ⟨d, hd, ?_⟩)
    rw [rerankStep, if_neg (by simp [hm]), hcomp, if_neg (by simp),
      if_neg hnf]
  · intro hcomp d hd hm
    have hguard : ¬(resolved.map pyLower = [] ∧ analysis.is_competitor_query = false) := by
      intro hg
      rw [hcomp] at hg
      exact absurd hg.2 (by decide)
    unfold rerank_results
    rw [if_neg hguard]
    refine (List.mem_insertionSort _).2 (List.mem_filterMap.2 ⟨d, hd, ?_⟩)
    rw [rerankStep, if_neg (by simp [hm]), hcomp, if_pos rfl]

/-- C2 witness: on the fixtures, the matched document enters the output
boosted ×1.3 for the factoid analysis, and the off-target document
survives unmodified for the competitor analysis. -/
theorem c2_witness :
    { docOnTarget with score := docOnTarget.score * (13/10 : ℚ) } ∈
      rerank_results [docOnTarget, docOffTarget] analysis0 ["ACME"] ∧
    docOffTarget ∈ rerank_results [docOnTarget, docOffTarget] analysisComp ["ACME"] := by
  constructor
  · exact (c2_heuristic_rerank [docOnTarget, docOffTarget] analysis0 ["ACME"]).2.1
      (Or.inl (by decide)) docOnTarget (by decide) (by decide)
  · exact (c2_heuristic_rerank [docOnTarget, docOffTarget] analysisComp ["ACME"]).2.2.2
      rfl docOffTarget (by decide) (by decide)

/-- An element returned by `head?` is a member of the list. -/
theorem mem_of_head? {α : Type} {l : List α} {a : α}
    (h : l.head? = some a) : a ∈ l := by
  cases l with
  | nil => simp at h
  | cons x t =>
    simp only [List.head?_cons, Option.some.injEq] at h
    rw [← h]
    exact List.mem_cons_self x t

/-- The head of a list sorted by ascending `sequence_order` is a lower
bound for every member. -/
theorem head?_seq_lb {l : List SourceMaterial}
    (hs : List.Sorted (fun a b => a.sequence_order ≤ b.sequence_order) l)
    {n m : SourceMaterial} (hh : l.head? = some n) (hm : m ∈ l) :
    n.sequence_order ≤ m.sequence_order := by
  cases l with
  | nil => simp at hh
  | cons a t =>
    simp only [List.head?_cons, Option.some.injEq] at hh
    rw [← hh]
    rcases List.mem_cons.1 hm with rfl | hmt
    · exact le_refl _
    · exact List.rel_of_sorted_cons hs m hmt

/-- Membership survives the optional company/chunk-type filters, the
sort and the truncation of `search_by_vector`. -/
theorem mem_search_by_vector (cosDist : List ℚ → List ℚ → ℚ)
    (db : Database) (qe : List ℚ) (k : Nat)
    (cf : Option (List String)) (ctf : Option String)
    (row : SourceMaterial × String × ℚ)
    (h : row ∈ search_by_vector cosDist db qe k cf ctf) :
    row ∈ (db.materials.flatMap (fun m =>
      (db.reports.filter (fun r => r.id == m.report_id)).flatMap (fun r =>
        (db.companies.filter (fun c => r.company_id == some c.id)).map (fun c =>
          (m, c.company_name, cosDist qe m.embedding))))).filter
      (fun row => row.1.chunk_type != "noise_merged") := by
  simp only [search_by_vector] at h
  have h1 := (List.mem_insertionSort _).1 (List.mem_of_mem_take h)
  clear h
  repeat' split at h1
  all_goals
    first
      | exact h1
      | exact (List.mem_filter.1 h1).1
      | exact (List.mem_filter.1 (List.mem_filter.1 h1).1).1

/-- Every row returned by the similarity search passed the
`chunk_type != 'noise_merged'` predicate. -/
theorem search_by_vector_no_noise (cosDist : List ℚ → List ℚ → ℚ)
    (db : Database) (qe : List ℚ) (k : Nat)
    (cf : Option (List String)) (ctf : Option String) :
    ∀ row ∈ search_by_vector cosDist db qe k cf ctf,
      row.1.chunk_type ≠ "noise_merged" := by
  intro row h
  have hb := mem_search_by_vector cosDist db qe k cf ctf row h
  have hp := (List.mem_filter.1 hb).2
  simpa using hp

/-- Characterization of the forward lookup: a returned fragment is a
non-noise member of the same report strictly after the current sequence,
and is nearest (its sequence is a lower bound among all candidates). -/
theorem get_nearest_next_chunk_spec (db : Database) (rid : Nat) (seq : Int)
    (n : SourceMaterial) (h : get_nearest_next_chunk db rid seq = some n) :
    n ∈ db.materials ∧ n.report_id = rid ∧ seq < n.sequence_order ∧
      n.chunk_type ≠ "noise_merged" ∧
      ∀ m ∈ db.materials, m.report_id = rid → seq < m.sequence_order →
        m.chunk_type ≠ "noise_merged" → n.sequence_order ≤ m.sequence_order := by
  unfold get_nearest_next_chunk at h
  haveI instTot : IsTotal SourceMaterial
      (fun a b => a.sequence_order ≤ b.sequence_order) :=
    ⟨fun a b => le_total a.sequence_order b.sequence_order⟩
  haveI instTrans : IsTrans SourceMaterial
      (fun a b => a.sequence_order ≤ b.sequence_order) :=
    ⟨fun _ _ _ hab hbc => le_trans hab hbc⟩
  have hsorted := List.sorted_insertionSort
    (fun a b : SourceMaterial => a.sequence_order ≤ b.sequence_order)
    (db.materials.filter (fun m =>
      m.report_id == rid && decide (seq < m.sequence_order)
        && m.chunk_type != "noise_merged"))
  have hmemsort := mem_of_head? h
  have hmemflt := (List.mem_insertionSort _).1 hmemsort
  have hprops := (List.mem_filter.1 hmemflt).2
  simp only [Bool.and_eq_true, beq_iff_eq, decide_eq_true_eq, bne_iff_ne,
    ne_eq] at hprops
  refine ⟨(List.mem_filter.1 hmemflt).1, hprops.1.1, hprops.1.2, hprops.2, ?_⟩
  intro m hm hmr hms hmn
  have hmflt : m ∈ db.materials.filter (fun m =>
      m.report_id == rid && decide (seq < m.sequence_order)
        && m.chunk_type != "noise_merged") := by
    refine List.mem_filter.2 ⟨hm, ?_⟩
    simp only [Bool.and_eq_true, beq_iff_eq, decide_eq_true_eq, bne_iff_ne,
      ne_eq]
    exact ⟨⟨hmr, hms⟩, hmn⟩
  exact head?_seq_lb hsorted h ((List.mem_insertionSort _).2 hmflt)

/-- C4: `noise_merged` fragments never appear in the results of the
similarity search, the forward lookup or the context window, and the
forward lookup never returns a fragment of a different report. -/
theorem c4_noise_and_report_invariants (cosDist : List ℚ → List ℚ → ℚ)
    (db : Database) (qe : List ℚ) (k : Nat) (cf : Option (List String))
    (ctf : Option String) (rid : Nat) (seq center ws : Int) :
    (∀ row ∈ search_by_vector cosDist db qe k cf ctf,
      row.1.chunk_type ≠ "noise_merged") ∧
    (∀ n, get_nearest_next_chunk db rid seq = some n →
      n.chunk_type ≠ "noise_merged" ∧ n.report_id = rid) ∧
    (∀ m ∈ get_context_window db rid center ws,
      m.chunk_type ≠ "noise_merged") := by
  refine ⟨search_by_vector_no_noise cosDist db qe k cf ctf, ?_, ?_⟩
  · intro n hn
    have hs := get_nearest_next_chunk_spec db rid seq n hn
    exact ⟨hs.2.2.2.1, hs.2.1⟩
  · intro m hm
    unfold get_context_window at hm
    have hflt := (List.mem_insertionSort _).1 hm
    have hp := (List.mem_filter.1 hflt).2
    simp only [Bool.and_eq_true, bne_iff_ne, ne_eq] at hp
    exact hp.1.2

/-- C4 witness: on the fixture store the forward lookup after the
report-7 text fragment returns the report-7 table (skipping the noise
fragment), which is non-noise and from report 7. -/
theorem c4_witness :
    matTable7.chunk_type ≠ "noise_merged" ∧ matTable7.report_id = 7 :=
  (c4_noise_and_report_invariants cosDist0 db0 [] 10 none none 7 10 10
    2).2.1 matTable7 (by decide)

/-- C3: table content is attached to a hit's content exactly when the
nearest non-noise fragment strictly after it in the same report is a
`table` within a sequence gap of 5 (with the merged-legend note prefixed
when flagged); otherwise — larger gap, non-table next fragment, or no
next fragment — the content is returned unchanged. -/
theorem c3_table_forward_lookup (db : Database)
    (analysis : QueryAnalysisResult) (resolved : List String)
    (row : SourceMaterial × String × ℚ) :
    (∀ n, get_nearest_next_chunk db row.1.report_id row.1.sequence_order
        = some n →
      ((n.chunk_type = "table" ∧ n.sequence_order - row.1.sequence_order ≤ 5 →
        (processRow db analysis resolved row).content =
          (if hasMergedMeta n then
            "[참고: 표에 단위/범례 정보가 포함됨]\n"
              ++ (row.1.raw_content ++ "\n\n[관련 표 데이터]\n" ++ n.raw_content)
          else
            row.1.raw_content ++ "\n\n[관련 표 데이터]\n" ++ n.raw_content)) ∧
       (¬(n.chunk_type = "table" ∧ n.sequence_order - row.1.sequence_order ≤ 5) →
        (processRow db analysis resolved row).content = row.1.raw_content) ∧
       n.report_id = row.1.report_id ∧
       row.1.sequence_order < n.sequence_order ∧
       n.chunk_type ≠ "noise_merged" ∧
       ∀ m ∈ db.materials, m.report_id = row.1.report_id →
         row.1.sequence_order < m.sequence_order →
         m.chunk_type ≠ "noise_merged" →
         n.sequence_order ≤ m.sequence_order)) ∧
    (get_nearest_next_chunk db row.1.report_id row.1.sequence_order = none →
      (processRow db analysis resolved row).content = row.1.raw_content) := by
  constructor
  · intro n hn
    have hs := get_nearest_next_chunk_spec db row.1.report_id
      row.1.sequence_order n hn
    refine ⟨?_, ?_, hs.2.1, hs.2.2.1, hs.2.2.2.1, hs.2.2.2.2⟩
    · intro hcond
      simp only [processRow, hn]
      rw [if_pos hcond]
    · intro hcond
      simp only [processRow, hn]
      rw [if_neg hcond]
  · intro hn
    simp only [processRow, hn]

/-- C3 witness: on the fixture store, the report-7 text fragment gets the
gap-3 table attached (with the merged-legend note), while the report-8
text fragment is returned unchanged (its table sits at gap 10 > 5). -/
theorem c3_witness :
    (processRow db0 analysis0 ["ACME"] (matText7, "ACME", 1/2)).content =
      "[참고: 표에 단위/범례 정보가 포함됨]\n"
        ++ ("alpha" ++ "\n\n[관련 표 데이터]\n" ++ "tabledata") ∧
    (processRow db0 analysis0 ["ACME"] (matText8, "GLOBEX", 1/4)).content =
      "beta" := by
  constructor
  · have h := ((c3_table_forward_lookup db0 analysis0 ["ACME"]
      (matText7, "ACME", 1/2)).1 matTable7 (by decide)).1 (by decide)
    rw [if_pos (by decide : hasMergedMeta matTable7 = true)] at h
    exact h
  · exact ((c3_table_forward_lookup db0 analysis0 ["ACME"]
      (matText8, "GLOBEX", 1/4)).1 matTable8 (by decide)).2.1 (by decide)

/-- The merge loop's fold computes `dedupGo` (the `seen_urls` set and the
output list threaded as an accumulator pair). -/
theorem foldl_dedupStep (l : List HybridDoc) :
    ∀ (seen : List String) (acc : List HybridDoc),
      (l.foldl dedupStep (seen, acc)).2 = acc ++ dedupGo seen l := by
  induction l with
  | nil => intro seen acc; simp [dedupGo]
  | cons x xs ih =>
    intro seen acc
    simp only [List.foldl_cons, dedupStep, dedupGo]
    by_cases hx : x.url ≠ ""
    · by_cases hmem : x.url ∈ seen
      · simp [hx, hmem, ih]
      · simp [hx, hmem, ih]
    · simp [hx, ih]

/-- `mergeDedup` is `dedupGo` started with an empty seen-set. -/
theorem mergeDedup_eq_dedupGo (l : List HybridDoc) :
    mergeDedup l = dedupGo [] l := by
  simp [mergeDedup, foldl_dedupStep]

/-- The deduplicated list is a sublist of the input. -/
theorem dedupGo_sublist (l : List HybridDoc) :
    ∀ seen, (dedupGo seen l).Sublist l := by
  induction l with
  | nil => intro seen; simp [dedupGo]
  | cons x xs ih =>
    intro seen
    simp only [dedupGo]
    by_cases hx : x.url ≠ ""
    · by_cases hmem : x.url ∈ seen
      · simp only [if_pos hx, if_pos hmem]
        exact (ih seen).cons x
      · simp only [if_pos hx, if_neg hmem]
        exact (ih _).cons₂ x
    · simp only [if_neg hx]
      exact (ih seen).cons₂ x

/-- Deduplication never drops an item with an empty url: the empty-url
sub-sequence is preserved exactly. -/
theorem dedupGo_filter_empty (l : List HybridDoc) :
    ∀ seen, (dedupGo seen l).filter (fun d => d.url == "")
      = l.filter (fun d => d.url == "") := by
  induction l with
  | nil => intro seen; simp [dedupGo]
  | cons x xs ih =>
    intro seen
    simp only [dedupGo]
    by_cases hx : x.url ≠ ""
    · by_cases hmem : x.url ∈ seen
      · rw [if_pos hx, if_pos hmem, ih seen, List.filter_cons]
        simp [hx]
      · rw [if_pos hx, if_neg hmem]
        simp only [List.filter_cons, ih]
    · rw [if_neg hx]
      simp only [List.filter_cons, ih]

/-- For every non-empty url, only the first-inserted item with that url
survives deduplication (and none survives when the url was pre-seen). -/
theorem dedupGo_filter_url (u : String) (hu : u ≠ "") (l : List HybridDoc) :
    ∀ seen, (dedupGo seen l).filter (fun d => d.url == u)
      = if u ∈ seen then []
        else (l.filter (fun d => d.url == u)).take 1 := by
  induction l with
  | nil => intro seen; simp [dedupGo]
  | cons x xs ih =>
    intro seen
    simp only [dedupGo]
    by_cases hx : x.url ≠ ""
    · by_cases hmem : x.url ∈ seen
      · rw [if_pos hx, if_pos hmem, ih seen]
        by_cases hus : u ∈ seen
        · simp [hus]
        · have hxu : ¬ x.url = u := fun hh => hus (hh ▸ hmem)
          simp [hus, List.filter_cons, hxu]
      · rw [if_pos hx, if_neg hmem]
        simp only [List.filter_cons, ih (x.url :: seen)]
        by_cases hxu : x.url = u
        · have hnotseen : u ∉ seen := hxu ▸ hmem
          simp [hxu, hnotseen]
        · have husiff : (u ∈ x.url :: seen) ↔ u ∈ seen := by
            constructor
            · intro hc
              rcases List.mem_cons.1 hc with hc1 | hc2
              · exact absurd hc1.symm hxu
              · exact hc2
            · exact List.mem_cons_of_mem _
          by_cases hus : u ∈ seen
          · simp [hxu, husiff, hus]
          · simp [hxu, husiff, hus, List.filter_cons]
    · have hxe : x.url = "" := not_not.1 hx
      have hxu : ¬ x.url = u := fun hh => hu (hh ▸ hxe)
      rw [if_neg hx]
      simp only [List.filter_cons, ih seen]
      simp [hxu]

/-- Deduplication of a concatenation splits: the first block is
deduplicated with the initial seen-set, the second with some extended
seen-set — so first-block survivors precede second-block survivors. -/
theorem dedupGo_append (E : List HybridDoc) :
    ∀ (I : List HybridDoc) (seen : List String),
      ∃ s2, dedupGo seen (I ++ E) = dedupGo seen I ++ dedupGo s2 E := by
  intro I
  induction I with
  | nil => intro seen; exact ⟨seen, by simp [dedupGo]⟩
  | cons x xs ih =>
    intro seen
    rw [List.cons_append]
    simp only [dedupGo]
    by_cases hx : x.url ≠ ""
    · by_cases hmem : x.url ∈ seen
      · simp only [if_pos hx, if_pos hmem]
        exact ih seen
      · simp only [if_pos hx, if_neg hmem]
        obtain ⟨s2, hs2⟩ := ih (x.url :: seen)
        exact ⟨s2, congrArg (List.cons x) hs2⟩
    · simp only [if_neg hx]
      obtain ⟨s2, hs2⟩ := ih seen
      exact ⟨s2, congrArg (List.cons x) hs2⟩

/-- A list whose non-empty urls are fresh and pairwise distinct passes
through deduplication unchanged. -/
theorem dedupGo_eq_self (l : List HybridDoc) :
    ∀ seen, (∀ x ∈ l, x.url ≠ "" → x.url ∉ seen) →
      List.Pairwise (fun a b => a.url = b.url → a.url = "") l →
      dedupGo seen l = l := by
  induction l with
  | nil => intro seen _ _; simp [dedupGo]
  | cons x xs ih =>
    intro seen hfresh hpw
    obtain ⟨hpx, hpxs⟩ := List.pairwise_cons.1 hpw
    simp only [dedupGo]
    by_cases hx : x.url ≠ ""
    · have hmem : x.url ∉ seen := hfresh x (List.mem_cons_self x xs) hx
      simp only [if_pos hx, if_neg hmem]
      rw [ih (x.url :: seen) ?_ hpxs]
      intro y hy hyne hymem
      rcases List.mem_cons.1 hymem with hc1 | hc2
      · exact hx (hpx y hy hc1.symm)
      · exact hfresh y (List.mem_cons_of_mem x hy) hyne hc2
    · simp only [if_neg hx]
      rw [ih seen (fun y hy => hfresh y (List.mem_cons_of_mem x hy)) hpxs]

/-- C7 — counterexample: with `external_k = 2`, the internal side raising
and the external side returning three results (the first two sharing url
`u1`), the merged output is a single document, not the three returned
ones — truncation to `external_k` and URL deduplication both shrink it. -/
theorem c7_counterexample :
    hybridForwardQuery 3 2 (Except.error "boom")
        (Except.ok [hDocA, hDocB, hDocC])
      ≠ tagSource "external" [hDocA, hDocB, hDocC] ∧
    (hybridForwardQuery 3 2 (Except.error "boom")
      (Except.ok [hDocA, hDocB, hDocC])).length = 1 := by decide

/-- C7 (amended): an exception on the internal side is caught (the merge
still runs and returns a value); when the external side returns `n`
results with `n ≤ external_k` whose non-empty urls are pairwise distinct,
the merged output is exactly those `n` results, each tagged
`external`. -/
theorem c7_partial_result_tolerance (internal_k external_k : Nat)
    (e : String) (ext : List HybridDoc)
    (hlen : ext.length ≤ external_k)
    (hdist : List.Pairwise (fun a b : HybridDoc =>
      a.url = b.url → a.url = "") ext) :
    hybridForwardQuery internal_k external_k (Except.error e)
        (Except.ok ext) = tagSource "external" ext ∧
    ∀ d ∈ hybridForwardQuery internal_k external_k (Except.error e)
        (Except.ok ext), d.source = "external" := by
  have htake : ext.take external_k = ext := List.take_of_length_le hlen
  have hpw : List.Pairwise (fun a b : HybridDoc =>
      a.url = b.url → a.url = "") (tagSource "external" ext) := by
    unfold tagSource
    exact List.pairwise_map.2 hdist
  have heq : hybridForwardQuery internal_k external_k (Except.error e)
      (Except.ok ext) = tagSource "external" ext := by
    show mergeDedup ([] ++ tagSource "external" (ext.take external_k))
      = tagSource "external" ext
    rw [htake, List.nil_append, mergeDedup_eq_dedupGo]
    exact dedupGo_eq_self _ [] (fun x _ _ => List.not_mem_nil x.url) hpw
  refine ⟨heq, ?_⟩
  intro d hd
  rw [heq] at hd
  obtain ⟨a, _, ha⟩ := List.mem_map.1 hd
  rw [← ha]

/-- C7 witness: the spec scenario — `internal_k = 3`, `external_k = 7`,
internal raises, external returns 5 distinct-url results: the merged
output is exactly those 5, tagged `external`. -/
theorem c7_witness :
    hybridForwardQuery 3 7 (Except.error "boom") (Except.ok hDocs5)
      = tagSource "external" hDocs5 :=
  (c7_partial_result_tolerance 3 7 "boom" hDocs5 (by decide) (by decide)).1

/-- C8: in the per-query merge, internal-side survivors precede
external-side survivors; for each non-empty url only the first-inserted
(internal-priority) copy survives; empty-url documents are never
deduplicated and all appear. -/
theorem c8_merge_order_and_dedup (internal_k external_k : Nat)
    (ints exts : List HybridDoc) :
    (∃ l1 l2,
      hybridForwardQuery internal_k external_k (Except.ok ints)
          (Except.ok exts) = l1 ++ l2 ∧
      l1.Sublist (tagSource "internal" (ints.take internal_k)) ∧
      l2.Sublist (tagSource "external" (exts.take external_k))) ∧
    (∀ u, u ≠ "" →
      (hybridForwardQuery internal_k external_k (Except.ok ints)
          (Except.ok exts)).filter (fun d => d.url == u)
        = ((tagSource "internal" (ints.take internal_k)
            ++ tagSource "external" (exts.take external_k)).filter
            (fun d => d.url == u)).take 1) ∧
    (hybridForwardQuery internal_k external_k (Except.ok ints)
        (Except.ok exts)).filter (fun d => d.url == "")
      = (tagSource "internal" (ints.take internal_k)
          ++ tagSource "external" (exts.take external_k)).filter
          (fun d => d.url == "") := by
  have heq : hybridForwardQuery internal_k external_k (Except.ok ints)
      (Except.ok exts)
      = dedupGo [] (tagSource "internal" (ints.take internal_k)
          ++ tagSource "external" (exts.take external_k)) := by
    show mergeDedup _ = _
    rw [mergeDedup_eq_dedupGo]
  refine ⟨?_, ?_, ?_⟩
  · obtain ⟨s2, hs2⟩ := dedupGo_append
      (tagSource "external" (exts.take external_k))
      (tagSource "internal" (ints.take internal_k)) []
    exact ⟨_, _, heq.trans hs2, dedupGo_sublist _ [], dedupGo_sublist _ s2⟩
  · intro u hu
    rw [heq, dedupGo_filter_url u hu _ [],
      if_neg (List.not_mem_nil u)]
  · rw [heq, dedupGo_filter_empty]

/-- C8 witness: an internal document and an external document share url
`u1`; the filter law shows only the first-inserted (internal) copy
survives. -/
theorem c8_witness :
    ("u1" : String) ≠ "" ∧
    (hybridForwardQuery 3 7 (Except.ok [hDocI, hDocNoUrl])
        (Except.ok [hDocA, hDocC])).filter (fun d => d.url == "u1")
      = ((tagSource "internal" ([hDocI, hDocNoUrl].take 3)
          ++ tagSource "external" ([hDocA, hDocC].take 7)).filter
          (fun d => d.url == "u1")).take 1 :=
  ⟨by decide,
    (c8_merge_order_and_dedup 3 7 [hDocI, hDocNoUrl] [hDocA, hDocC]).2.1
      "u1" (by decide)⟩

/-- C9: the orchestrator performs no input validation — a non-positive
`top_k` silently yields the empty list and an empty query string flows
through the pipeline and returns an ordinary (here one-element) result
list; no validation error is ever raised (the pipeline is a total
function into result lists). -/
theorem c9_no_validation_error :
    search scorer0 cosDist0 embed0 db0 resolver0 (Except.ok analysis0) "" 0
        true true = [] ∧
    (search scorer0 cosDist0 embed0 db0 resolver0 (Except.ok analysis0) "" 10
        true true).length = 1 := by decide

/-- C10 — counterexample: a search call with
`enable_source_tagging = false` (an argument the contract allows) returns
the fragment with its internal-only company label still present, so "for
every search call" the internal fields are stripped is false as stated. -/
theorem c10_counterexample :
    ¬ ∀ d ∈ search scorer0 cosDist0 embed0 db0 resolver0
        (Except.ok analysis0) "q" 10 true false,
      d.company_name = none ∧ d.intent = none ∧ d.matched_entities = none := by
  decide

/-- C10 (amended): for every search call with source tagging enabled
(the default), every returned fragment has the internal-only fields
(company label, intent, matched-entity list) stripped, and its content is
the content computed for some retrieved row, prefixed by the provenance
marker naming that row's company and the report identifier parsed from
the row's url. -/
theorem c10_source_tagging (scorer : String → String → ℚ)
    (cosDist : List ℚ → List ℚ → ℚ) (embed : String → List ℚ)
    (db : Database) (resolver : CompanyEntityResolver)
    (llm : Except String QueryAnalysisResult) (query : String)
    (top_k : Nat) (er : Bool) :
    ∀ d ∈ search scorer cosDist embed db resolver llm query top_k er true,
      d.company_name = none ∧ d.intent = none ∧ d.matched_entities = none ∧
      ∃ row ∈ search_by_vector cosDist db (embed query)
          (searchPoolSize (analyze llm query) top_k)
          (searchFilterList (analyze llm query)
            (resolveCompanies scorer resolver
              (analyze llm query).target_companies))
          (some "text"),
        d.content =
          "[[출처: " ++ row.2.1 ++ " 사업보고서 (Report ID: "
            ++ (((pySplit ("dart_report_" ++ toString row.1.report_id
                  ++ "_chunk_" ++ toString row.1.id) '_').get? 2).getD "N/A")
            ++ ")]]" ++ "\n\n"
            ++ (processRow db (analyze llm query)
                (resolveCompanies scorer resolver
                  (analyze llm query).target_companies) row).content := by
  intro d hd
  simp only [search] at hd
  split at hd
  · simp at hd
  · obtain ⟨d0, hd0, hdeq⟩ := List.mem_map.1 hd
    have hshape : ∃ row ∈ search_by_vector cosDist db (embed query)
        (searchPoolSize (analyze llm query) top_k)
        (searchFilterList (analyze llm query)
          (resolveCompanies scorer resolver
            (analyze llm query).target_companies))
        (some "text"),
        d0.content = (processRow db (analyze llm query)
          (resolveCompanies scorer resolver
            (analyze llm query).target_companies) row).content ∧
        d0.url = (processRow db (analyze llm query)
          (resolveCompanies scorer resolver
            (analyze llm query).target_companies) row).url ∧
        d0.company_name = (processRow db (analyze llm query)
          (resolveCompanies scorer resolver
            (analyze llm query).target_companies) row).company_name := by
      by_cases her : er = true
      · rw [if_pos her] at hd0
        obtain ⟨p, hp, hsh⟩ := rerank_results_mem_shape _ _ _ _
          (List.mem_of_mem_take hd0)
        obtain ⟨row, hrow, hpe⟩ := List.mem_map.1 hp
        refine ⟨row, hrow, ?_, ?_, ?_⟩
        · rw [hsh.1, ← hpe]
        · rw [hsh.2.2.1, ← hpe]
        · rw [hsh.2.2.2.1, ← hpe]
      · rw [if_neg her] at hd0
        obtain ⟨row, hrow, hpe⟩ := List.mem_map.1 hd0
        refine ⟨row, hrow, ?_, ?_, ?_⟩
        · rw [← hpe]
        · rw [← hpe]
        · rw [← hpe]
    obtain ⟨row, hrow, hc, hu, hcn⟩ := hshape
    subst hdeq
    refine ⟨rfl, rfl, rfl, row, hrow, ?_⟩
    simp only [applySourceTagging]
    rw [hcn, hu, hc]
    rfl

/-- C10 witness: the concrete fixture run with tagging enabled — the
output's fields are stripped and its content carries the provenance tag
for company ACME, report 7. -/
theorem c10_witness :
    ∃ d, d ∈ search scorer0 cosDist0 embed0 db0 resolver0
        (Except.ok analysis0) "q" 10 true true ∧
      d.company_name = none ∧ d.intent = none ∧
      d.matched_entities = none := by
  have hne : search scorer0 cosDist0 embed0 db0 resolver0
      (Except.ok analysis0) "q" 10 true true ≠ [] := by decide
  obtain ⟨d, hd⟩ := List.exists_mem_of_ne_nil _ hne
  have h := c10_source_tagging scorer0 cosDist0 embed0 db0 resolver0
    (Except.ok analysis0) "q" 10 true d hd
  exact ⟨d, hd, h.1, h.2.1, h.2.2.1⟩

end Storm
